import Mathlib

/-!
Verification of the ExpGen incremental expression builder.

Shallow embedding of `expbuilder/rpnBuilder.py`, `expbuilder/tokens.py`,
`expbuilder/op.py` and `expbuilder/utils/karva.py`.  Numeric values are
modelled as `Int`; operator transforms are opaque total functions
`List Int → Int`; Python dictionaries are association lists; raising an
exception is modelled by returning `Except PyError` (or `Option`), with a
constructor per Python exception class involved.
-/

namespace ExpGen

/-- Python exception classes reachable from the embedded code. -/
inductive PyError
  | valueError (msg : String)
  | typeError
  | indexError
  | keyError
  | zeroDivisionError
  | karvaError
deriving DecidableEq, Repr

/-- `OPType` from `op.py`: cross-sectional vs time-series operators. -/
inductive OPType
  | CS
  | TS
deriving DecidableEq, Repr

/-- `Operator` from `op.py`: only the fields the builder consults
(`name`, `Optype`, and `n_args() = len(argTypeList)`). -/
structure Operator where
  name : String
  Optype : OPType
  nArgs : Nat
deriving DecidableEq, Repr

/-- `SequenceIndicatorType` from `tokens.py`. -/
inductive SequenceIndicatorType
  | BEG
  | SEP
deriving DecidableEq, Repr

/-- The closed token variant from `tokens.py`. -/
inductive Token
  | constant (c : Int)
  | deltaTime (d : Int)
  | feature (f : String)
  | operator (op : Operator)
  | seqInd (i : SequenceIndicatorType)
deriving DecidableEq, Repr

/-- `str(token)` for each token class in `tokens.py`. -/
def Token.render : Token → String
  | .constant c => toString c
  | .deltaTime d => toString d
  | .feature f => "$" ++ f.toLower
  | .operator op => op.name
  | .seqInd .BEG => "BEG"
  | .seqInd .SEP => "SEP"

/-- An operator transform: the opaque callable stored in the ops dict. -/
abbrev OpImpl := List Int → Int

/-- The `{symbol: (function, arity)}` dictionary shared by `RPNBase` and
`KEBase`, as an association list. -/
abbrev OpsDict := List (String × (OpImpl × Nat))

/-- Which non-marker token class was seen last during the replay
(`last_token` in `valid_next_token_formal` / `valid_next_token_value`). -/
inductive LastKind
  | const
  | dt
  | feat
  | op
deriving DecidableEq, Repr

/-- Replay loop of `RPNBuilder.valid_next_token_formal` (lines 177-198):
markers are skipped, operands push a placeholder, an operator pops `arity`
placeholders (IndexError when the stack is short, KeyError when the
operator name is not in `self.ops`) and pushes one.  Only the stack depth
and the last non-marker token kind are tracked. -/
def simFormalAux (ops : OpsDict) : List Token → Nat → Option LastKind →
    Except PyError (Nat × Option LastKind)
  | [], depth, last => .ok (depth, last)
  | t :: rest, depth, last =>
    match t with
    | .seqInd _ => simFormalAux ops rest depth last
    | .constant _ => simFormalAux ops rest (depth + 1) (some .const)
    | .deltaTime _ => simFormalAux ops rest (depth + 1) (some .dt)
    | .feature _ => simFormalAux ops rest (depth + 1) (some .feat)
    | .operator op =>
      match List.lookup op.name ops with
      | none => .error .keyError
      | some (_, arity) =>
        if arity ≤ depth then simFormalAux ops rest (depth - arity + 1) (some .op)
        else .error .indexError

/-- The formal replay started on the empty stack. -/
def simFormal (ops : OpsDict) (toks : List Token) :
    Except PyError (Nat × Option LastKind) :=
  simFormalAux ops toks 0 none

/-- Replay loop of `RPNBuilder.valid_next_token_value` (lines 237-259):
same control flow as the formal replay but the stack holds real values;
`ConstantToken.Val()` / `DeltaTimeToken.Val()` push the literal,
`FeatureToken.Val(data)` resolves the raw feature key in `data` (KeyError
when absent), and an operator pops `arity` values (bottom-to-top argument
order) and pushes the transform's result.  The stack head is the top. -/
def simValueAux (ops : OpsDict) (data : String → Option Int) :
    List Token → List Int → Option LastKind →
    Except PyError (List Int × Option LastKind)
  | [], stack, last => .ok (stack, last)
  | t :: rest, stack, last =>
    match t with
    | .seqInd _ => simValueAux ops data rest stack last
    | .constant c => simValueAux ops data rest (c :: stack) (some .const)
    | .deltaTime d => simValueAux ops data rest (d :: stack) (some .dt)
    | .feature f =>
      match data f with
      | none => .error .keyError
      | some v => simValueAux ops data rest (v :: stack) (some .feat)
    | .operator op =>
      match List.lookup op.name ops with
      | none => .error .keyError
      | some (func, arity) =>
        if arity ≤ stack.length then
          simValueAux ops data rest
            (func (stack.take arity).reverse :: stack.drop arity) (some .op)
        else .error .indexError

/-- The value replay started on the empty stack. -/
def simValue (ops : OpsDict) (data : String → Option Int) (toks : List Token) :
    Except PyError (List Int × Option LastKind) :=
  simValueAux ops data toks [] none

/-- One `{"Max": ..., "Min": ...}` entry of a legality record. -/
structure OPBound where
  Max : Option Nat
  Min : Option Nat
deriving DecidableEq, Repr

/-- The dictionary returned by the two `valid_next_token` methods. -/
structure LegalityRecord where
  Constant : Bool
  DeltaTime : Bool
  Feature : Bool
  CSOperator : OPBound
  TSOperator : OPBound
  SEP : Bool
deriving DecidableEq, Repr

/-- `RPNBuilder` state: the token list, the rendered-text mirror
`self.expression` (inherited from `RPNBase`), the ops dictionary and the
length cap `self.maxLen`.  The derived indexes `CSops`/`TSops`/`MaxArity`
built in `__init__` are never consulted by the verified operations and are
not carried. -/
structure RPNBuilder where
  tokenList : List Token
  expression : List String
  ops : OpsDict
  maxLen : Nat

/-- The `strexp` loop of `RPNBuilder.__init__` (lines 144-150): the
rendered text of every non-marker token, in order. -/
def strexpOf : List Token → List String
  | [] => []
  | t :: rest =>
    match t with
    | .seqInd _ => strexpOf rest
    | _ => t.render :: strexpOf rest

/-- `RPNBuilder.__init__` (with `custom_ops = None`): record the token
list, the cap, a copy of the ops dict, and the rendered mirror. -/
def mkRPNBuilder (tokenList : List Token) (default_ops : OpsDict)
    (max_length : Nat) : RPNBuilder :=
  { tokenList := tokenList
    expression := strexpOf tokenList
    ops := default_ops
    maxLen := max_length }

/-- `RPNBuilder.valid_next_token_formal` (lines 172-231).  After the
replay: the depth==1 row first, then the empty row, then rows keyed on the
last token's class.  In the DeltaTime row this path reports
`TSOperator.Max = len(stack)` (line 224). -/
def validNextTokenFormal (b : RPNBuilder) : Except PyError LegalityRecord :=
  match simFormal b.ops b.tokenList with
  | .error e => .error e
  | .ok (depth, last) =>
    if depth = 1 then
      .ok { Constant := true, DeltaTime := true, Feature := true
            CSOperator := { Max := some 1, Min := none }
            TSOperator := { Max := none, Min := none }
            SEP := true }
    else
      match last with
      | none =>
        .ok { Constant := true, DeltaTime := false, Feature := true
              CSOperator := { Max := none, Min := none }
              TSOperator := { Max := none, Min := none }
              SEP := false }
      | some .const | some .feat =>
        .ok { Constant := true, DeltaTime := true, Feature := true
              CSOperator := { Max := some depth, Min := none }
              TSOperator := { Max := none, Min := none }
              SEP := false }
      | some .dt =>
        .ok { Constant := false, DeltaTime := false, Feature := false
              CSOperator := { Max := none, Min := none }
              TSOperator := { Max := some depth, Min := none }
              SEP := false }
      | some .op =>
        .ok { Constant := true, DeltaTime := true, Feature := true
              CSOperator := { Max := some depth, Min := none }
              TSOperator := { Max := none, Min := none }
              SEP := false }

/-- `RPNBuilder.valid_next_token_value` (lines 233-297).  Identical rows
except: before any row is selected the dead expression
`MinArity4Choose = (len(stack)-1)/remaining + 1` is evaluated, which
raises ZeroDivisionError when `remaining = maxLen - len(tokenList)` is
zero; and the DeltaTime row reports `TSOperator.Max = len(stack) - 1`
(line 290). -/
def validNextTokenValue (b : RPNBuilder) (data : String → Option Int) :
    Except PyError LegalityRecord :=
  match simValue b.ops data b.tokenList with
  | .error e => .error e
  | .ok (stack, last) =>
    let remaining : Int := (b.maxLen : Int) - (b.tokenList.length : Int)
    if remaining = 0 then .error .zeroDivisionError
    else if stack.length = 1 then
      .ok { Constant := true, DeltaTime := true, Feature := true
            CSOperator := { Max := some 1, Min := none }
            TSOperator := { Max := none, Min := none }
            SEP := true }
    else
      match last with
      | none =>
        .ok { Constant := true, DeltaTime := false, Feature := true
              CSOperator := { Max := none, Min := none }
              TSOperator := { Max := none, Min := none }
              SEP := false }
      | some .const | some .feat =>
        .ok { Constant := true, DeltaTime := true, Feature := true
              CSOperator := { Max := some stack.length, Min := none }
              TSOperator := { Max := none, Min := none }
              SEP := false }
      | some .dt =>
        .ok { Constant := false, DeltaTime := false, Feature := false
              CSOperator := { Max := none, Min := none }
              TSOperator := { Max := some (stack.length - 1), Min := none }
              SEP := false }
      | some .op =>
        .ok { Constant := true, DeltaTime := true, Feature := true
              CSOperator := { Max := some stack.length, Min := none }
              TSOperator := { Max := none, Min := none }
              SEP := false }

/-- `RPNBuilder.add_token_formal` (lines 299-342), as a state transformer
returning the post-state together with the raised exception, if any.
Mutations are transcribed in source order, so a raise reached after an
append would leave the appends visible.  The CS branch rejects with
`Max is None or Max < n_args`; the TS branch's condition is
`Max is None and Max < n_args`, so a `None` bound evaluates `None < int`
(TypeError) and a non-`None` bound short-circuits to an append. -/
def addTokenFormal (b : RPNBuilder) (token : Token) :
    RPNBuilder × Option PyError :=
  if b.tokenList.length < b.maxLen then
    match validNextTokenFormal b with
    | .error e => (b, some e)
    | .ok vnt =>
      match token with
      | .constant _ =>
        if vnt.Constant then
          ({ b with tokenList := b.tokenList ++ [token]
                    expression := b.expression ++ [token.render] }, none)
        else (b, some (.valueError "ConstantToken is invalid for the expression"))
      | .deltaTime _ =>
        if vnt.DeltaTime then
          ({ b with tokenList := b.tokenList ++ [token]
                    expression := b.expression ++ [token.render] }, none)
        else (b, some (.valueError "DeltaTimeToken is invalid for the expression"))
      | .feature _ =>
        if vnt.Feature then
          ({ b with tokenList := b.tokenList ++ [token]
                    expression := b.expression ++ [token.render] }, none)
        else (b, some (.valueError "FeatureToken is invalid for the expression"))
      | .operator op =>
        match op.Optype with
        | .CS =>
          match vnt.CSOperator.Max with
          | none => (b, some (.valueError "The Token is invalid for the expression"))
          | some m =>
            if m < op.nArgs then
              (b, some (.valueError "The Token is invalid for the expression"))
            else
              ({ b with tokenList := b.tokenList ++ [token]
                        expression := b.expression ++ [token.render] }, none)
        | .TS =>
          match vnt.TSOperator.Max with
          | none => (b, some .typeError)
          | some _ =>
            ({ b with tokenList := b.tokenList ++ [token]
                      expression := b.expression ++ [token.render] }, none)
      | .seqInd _ =>
        if vnt.SEP then ({ b with tokenList := b.tokenList ++ [token] }, none)
        else (b, some (.valueError "SEP Token is invalid for the expression"))
  else (b, some (.valueError "The expression is full"))

/-- `RPNBuilder.add_token_value` (lines 344-387).  Same shape as the
formal variant, but both the CS and the TS operator branches use the
`Max is None and Max < n_args` condition. -/
def addTokenValue (b : RPNBuilder) (data : String → Option Int)
    (token : Token) : RPNBuilder × Option PyError :=
  if b.tokenList.length < b.maxLen then
    match validNextTokenValue b data with
    | .error e => (b, some e)
    | .ok vnt =>
      match token with
      | .constant _ =>
        if vnt.Constant then
          ({ b with tokenList := b.tokenList ++ [token]
                    expression := b.expression ++ [token.render] }, none)
        else (b, some (.valueError "The expression is invalid"))
      | .deltaTime _ =>
        if vnt.DeltaTime then
          ({ b with tokenList := b.tokenList ++ [token]
                    expression := b.expression ++ [token.render] }, none)
        else (b, some (.valueError "The expression is invalid"))
      | .feature _ =>
        if vnt.Feature then
          ({ b with tokenList := b.tokenList ++ [token]
                    expression := b.expression ++ [token.render] }, none)
        else (b, some (.valueError "The expression is invalid"))
      | .operator op =>
        match op.Optype with
        | .CS =>
          match vnt.CSOperator.Max with
          | none => (b, some .typeError)
          | some _ =>
            ({ b with tokenList := b.tokenList ++ [token]
                      expression := b.expression ++ [token.render] }, none)
        | .TS =>
          match vnt.TSOperator.Max with
          | none => (b, some .typeError)
          | some _ =>
            ({ b with tokenList := b.tokenList ++ [token]
                      expression := b.expression ++ [token.render] }, none)
      | .seqInd _ =>
        if vnt.SEP then ({ b with tokenList := b.tokenList ++ [token] }, none)
        else (b, some (.valueError "The expression is invalid for the SEP token"))
  else (b, some (.valueError "The expression is full"))

/-- `MaskOPSpace` (rpnBuilder.py lines 55-68): all-false when the class
bound is `None`, otherwise one entry per operator comparing its arity
(from `func_arity_dict`, assumed to contain every listed operator, as
`GetArityDict` guarantees for registered ones) against the bound. -/
def MaskOPSpace (func_arity_dict : String → Nat) (ValidOPDict : OPBound)
    (Operators : List String) : List Bool :=
  match ValidOPDict.Max with
  | none => List.replicate Operators.length false
  | some MaxArity => Operators.map (fun op => decide (func_arity_dict op ≤ MaxArity))

/-- `MaskActionSpace` (rpnBuilder.py lines 70-125): the boolean mask over
the action catalog, built segment by segment — constants, features, delta
times, CS operators, TS operators, then the SEP entry. -/
def MaskActionSpace (Constants : Option (List Int))
    (Features : Option (List String)) (DeltaTimes : Option (List Int))
    (CSOperators : Option (List String)) (TSOperators : Option (List String))
    (func_arity_dict : String → Nat) (ValidDict : LegalityRecord) : List Bool :=
  let a1 : List Bool :=
    match Constants with
    | some cs => List.replicate cs.length ValidDict.Constant
    | none => []
  let a2 : List Bool :=
    match Features with
    | some fs => List.replicate fs.length ValidDict.Feature
    | none => []
  let a3 : List Bool :=
    match DeltaTimes with
    | some ds => List.replicate ds.length ValidDict.DeltaTime
    | none => []
  let a4 : List Bool :=
    match CSOperators with
    | some os =>
      match ValidDict.CSOperator.Max with
      | some _ => MaskOPSpace func_arity_dict ValidDict.CSOperator os
      | none => List.replicate os.length false
    | none => []
  let a5 : List Bool :=
    match TSOperators with
    | some os =>
      match ValidDict.TSOperator.Max with
      | some _ => MaskOPSpace func_arity_dict ValidDict.TSOperator os
      | none => List.replicate os.length false
    | none => []
  a1 ++ a2 ++ a3 ++ a4 ++ a5 ++ [ValidDict.SEP]

/-! ## Karva variant (`expbuilder/utils/karva.py`) -/

/-- A Karva expression entry: a string token or a numeric literal. -/
inductive KTok
  | num (n : Int)
  | str (s : String)
deriving DecidableEq, Repr

/-- `token in self.ops` for a Karva entry (numbers are never dict keys). -/
def ktokInOps (ops : OpsDict) : KTok → Bool
  | .num _ => false
  | .str s => (List.lookup s ops).isSome

/-- `max(arity for _, (_, arity) in self.ops.items())`, which raises on an
empty dictionary (hence `none`). -/
def maxArityOf (ops : OpsDict) : Option Nat :=
  match ops with
  | [] => none
  | x :: rest => some (rest.foldl (fun m p => max m p.2.2) x.2.2)

/-- `KEBase.validate_expression` (karva.py lines 46-74): reject when the
length is at most the head length, when it is below head + tail (tail
computed over the integers as `head*(max_arity-1)+1`), or when any tail
entry is an operator; accept otherwise.  `none` models the ValueError
from `max()` on an empty ops dictionary. -/
def validate_expression (ops : OpsDict) (head_length : Nat)
    (expression : List KTok) : Option Bool :=
  if expression.length ≤ head_length then some false
  else
    match maxArityOf ops with
    | none => none
    | some max_arity =>
      let tail_length : Int := (head_length : Int) * ((max_arity : Int) - 1) + 1
      if (expression.length : Int) < (head_length : Int) + tail_length then
        some false
      else if (expression.drop head_length).any (ktokInOps ops) then some false
      else some true

/-- A node of the Karva expression tree (`TreeNode`). -/
inductive KTree
  | node (value : KTok) (children : List KTree)

/-- `KEBase.build_tree`'s recursive `build_subtree` (karva.py lines
102-123), with the `nonlocal idx` cursor threaded as the returned
remainder and the `for _ in range(arity)` child loop fused into the same
recursion: `parseK fuel k ops l` consumes `k` consecutive subtrees from
`l`.  Consuming an operator token first recursively consumes its `arity`
children, then the remaining `k-1` siblings; a terminal consumes just its
own token.  Running off the end of the sequence (Python IndexError) gives
`none`; the fuel argument only forces termination and one unit per
consumed token suffices. -/
def parseK : Nat → Nat → OpsDict → List KTok → Option (List KTree × List KTok)
  | _, 0, _, l => some ([], l)
  | 0, _ + 1, _, _ => none
  | _ + 1, _ + 1, _, [] => none
  | f + 1, k + 1, ops, KTok.num n :: rest =>
    match parseK f k ops rest with
    | none => none
    | some (cs, r) => some (KTree.node (KTok.num n) [] :: cs, r)
  | f + 1, k + 1, ops, KTok.str s :: rest =>
    match List.lookup s ops with
    | none =>
      match parseK f k ops rest with
      | none => none
      | some (cs, r) => some (KTree.node (KTok.str s) [] :: cs, r)
    | some (_, arity) =>
      match parseK f arity ops rest with
      | none => none
      | some (cs1, r1) =>
        match parseK f k ops r1 with
        | none => none
        | some (cs, r) => some (KTree.node (KTok.str s) cs1 :: cs, r)

/-- One call of `build_subtree` on a sequence: parse exactly one subtree,
returning it with the unconsumed remainder. -/
def build_subtree (ops : OpsDict) (l : List KTok) : Option (KTree × List KTok) :=
  match parseK (l.length + 1) 1 ops l with
  | some (t :: _, r) => some (t, r)
  | _ => none

/-- `KEBase.build_tree` (karva.py lines 77-123): parse one subtree from
index 0 and return its root, ignoring any unconsumed trailing tokens. -/
def build_tree (ops : OpsDict) (expression : List KTok) : Option KTree :=
  (build_subtree ops expression).map (fun p => p.1)

mutual

/-- `KEBase.evaluate_tree` (karva.py lines 127-144): numeric leaves give
their value, a string found in `variables` resolves there (this check
precedes the operator check, as in the source), an operator applies its
transform to the recursively evaluated children, anything else raises
`InvalidKarvaExpressionError`. -/
def evaluate_tree (ops : OpsDict) (vars : String → Option Int) :
    KTree → Except PyError Int
  | .node v cs =>
    match v with
    | .num n => .ok n
    | .str s =>
      match vars s with
      | some x => .ok x
      | none =>
        match List.lookup s ops with
        | some (func, _) =>
          match evalChildren ops vars cs with
          | .error e => .error e
          | .ok args => .ok (func args)
        | none => .error .karvaError

/-- The `[self.evaluate_tree(child, variables) for child in node.children]`
comprehension: children evaluated left to right, first error propagating. -/
def evalChildren (ops : OpsDict) (vars : String → Option Int) :
    List KTree → Except PyError (List Int)
  | [] => .ok []
  | c :: rest =>
    match evaluate_tree ops vars c with
    | .error e => .error e
    | .ok v =>
      match evalChildren ops vars rest with
      | .error e => .error e
      | .ok vs => .ok (v :: vs)

end

mutual

/-- `tree_to_string` inside `KEBase.to_string` (karva.py lines 175-184):
numbers print themselves, operators print `name(arg0, ..., argK-1)`,
remaining strings print as variables. -/
def tree_to_string (ops : OpsDict) : KTree → String
  | .node v cs =>
    match v with
    | .num n => toString n
    | .str s =>
      match List.lookup s ops with
      | some _ => s ++ "(" ++ String.intercalate ", " (trees_to_strings ops cs) ++ ")"
      | none => s

/-- The children's rendered strings, left to right. -/
def trees_to_strings (ops : OpsDict) : List KTree → List String
  | [] => []
  | c :: rest => tree_to_string ops c :: trees_to_strings ops rest

end

/-- `KEBase.evaluate` (karva.py lines 160-167): build the tree (IndexError
when the sequence runs out) then evaluate it. -/
def evaluateK (ops : OpsDict) (expression : List KTok)
    (vars : String → Option Int) : Except PyError Int :=
  match build_tree ops expression with
  | none => .error .indexError
  | some t => evaluate_tree ops vars t

/-- `KEBase.to_string` (karva.py lines 170-187): build the tree then
render it. -/
def to_stringK (ops : OpsDict) (expression : List KTok) :
    Except PyError String :=
  match build_tree ops expression with
  | none => .error .indexError
  | some t => .ok (tree_to_string ops t)

/-- The arity the Karva builder would use for a token: `none` for
terminals (numbers and strings outside the ops dict). -/
def arityOfTok (ops : OpsDict) : KTok → Option Nat
  | .num _ => none
  | .str s => (List.lookup s ops).map (fun p => p.2)

/-- Declarative reading of the claimed `build_tree` consumption order:
`Builds ops k l cs r` says that `k` consecutive subtrees `cs` are consumed
depth-first from the front of `l`, leaving remainder `r` — a terminal
consumes its own token and yields a childless leaf; an operator of arity
`a` immediately and recursively consumes its `a` child subtrees before the
remaining siblings are consumed. -/
inductive Builds (ops : OpsDict) : Nat → List KTok → List KTree → List KTok → Prop
  | nil (l : List KTok) : Builds ops 0 l [] l
  | leaf (t : KTok) (rest : List KTok) (k : Nat) (ts : List KTree) (r : List KTok) :
      arityOfTok ops t = none → Builds ops k rest ts r →
      Builds ops (k + 1) (t :: rest) (KTree.node t [] :: ts) r
  | opNode (t : KTok) (a : Nat) (rest : List KTok) (cs : List KTree)
      (r1 : List KTok) (k : Nat) (ts : List KTree) (r : List KTok) :
      arityOfTok ops t = some a → Builds ops a rest cs r1 →
      Builds ops k r1 ts r →
      Builds ops (k + 1) (t :: rest) (KTree.node t cs :: ts) r

/-! ## Concrete instances used by counterexamples and witnesses -/

/-- A binary addition transform, standing in for the opaque callables of
the example operator registries. -/
def addImpl : OpImpl := fun l => l.getD 0 0 + l.getD 1 0

/-- A small registry with one CS and one TS binary operator. -/
def exOps : OpsDict := [("add", (addImpl, 2)), ("ref", (addImpl, 2))]

/-- Begin marker, two constants, then a DeltaTime: replay depth 3 with a
DeltaTime as the last non-marker token. -/
def dtToks : List Token :=
  [.seqInd .BEG, .constant 3, .constant 4, .deltaTime 1]

/-- An empty binding map. -/
def noData : String → Option Int := fun _ => none

/-- A TS operator of arity 4, larger than any bound the `dtToks` state
can report. -/
def tsOp4 : Operator := { name := "tsop4", Optype := .TS, nArgs := 4 }

/-- The depth==1 legality row returned by both legality modes. -/
def terminatedRecord : LegalityRecord :=
  { Constant := true, DeltaTime := true, Feature := true
    CSOperator := { Max := some 1, Min := none }
    TSOperator := { Max := none, Min := none }
    SEP := true }

/-- A Karva registry with two binary operators (max arity 2). -/
def c5Ops : OpsDict := [("+", (addImpl, 2)), ("-", (addImpl, 2))]

/-- Six terminals: longer than head (2) + tail (3) yet operator-free. -/
def c5Expr : List KTok :=
  [.str "a", .str "b", .str "c", .num 1, .num 2, .num 3]

/-- A five-entry expression of exact Karva length for head 2, arity 2. -/
def c5Exact : List KTok := [.str "+", .str "a", .str "b", .num 1, .num 2]

/-- The three binary operators of the worked Karva example. -/
def c6Ops : OpsDict :=
  [("+", (addImpl, 2)), ("-", (addImpl, 2)), ("*", (addImpl, 2))]

/-- The flat sequence `+ - * a b c d e f`. -/
def c6Toks : List KTok :=
  [.str "+", .str "-", .str "*", .str "a", .str "b", .str "c",
   .str "d", .str "e", .str "f"]

/-- The claimed result `+(-(*(a, b), c), d)` of building `c6Toks`. -/
def c6Tree : KTree :=
  .node (.str "+")
    [.node (.str "-")
      [.node (.str "*") [.node (.str "a") [], .node (.str "b") []],
       .node (.str "c") []],
     .node (.str "d") []]

/-! ## Shared lemmas -/

/-- The value replay refines the formal replay: whenever the value replay
succeeds, the formal replay succeeds with the value stack's length as its
depth and the same last-token kind. -/
theorem simValueAux_to_formal (ops : OpsDict) (data : String → Option Int) :
    ∀ (toks : List Token) (stack : List Int) (last : Option LastKind)
      (st : List Int) (l : Option LastKind),
      simValueAux ops data toks stack last = .ok (st, l) →
      simFormalAux ops toks stack.length last = .ok (st.length, l) := by
  intro toks
  induction toks with
  | nil =>
    intro stack last st l h
    simp only [simValueAux, Except.ok.injEq, Prod.mk.injEq] at h
    simp only [simFormalAux, Except.ok.injEq, Prod.mk.injEq]
    exact ⟨by rw [h.1], h.2⟩
  | cons t rest ih =>
    intro stack last st l h
    cases t with
    | seqInd i =>
      simp only [simValueAux] at h
      simp only [simFormalAux]
      exact ih stack last st l h
    | constant c =>
      simp only [simValueAux] at h
      simp only [simFormalAux]
      exact ih (c :: stack) (some .const) st l h
    | deltaTime d =>
      simp only [simValueAux] at h
      simp only [simFormalAux]
      exact ih (d :: stack) (some .dt) st l h
    | feature f =>
      simp only [simValueAux] at h
      simp only [simFormalAux]
      cases hd : data f with
      | none => rw [hd] at h; exact absurd h (by simp)
      | some v =>
        rw [hd] at h
        exact ih (v :: stack) (some .feat) st l h
    | operator op =>
      simp only [simValueAux] at h
      simp only [simFormalAux]
      cases hl : List.lookup op.name ops with
      | none => rw [hl] at h; exact absurd h (by simp)
      | some pr =>
        obtain ⟨func, arity⟩ := pr
        rw [hl] at h
        dsimp only at h ⊢
        by_cases ha : arity ≤ stack.length
        · rw [if_pos ha] at h
          rw [if_pos ha]
          have := ih (func (stack.take arity).reverse :: stack.drop arity)
            (some .op) st l h
          simpa [List.length_drop, Nat.sub_add_comm] using this
        · rw [if_neg ha] at h
          exact absurd h (by simp)

/-- Same statement for the complete replays. -/
theorem simValue_to_formal (ops : OpsDict) (data : String → Option Int)
    (toks : List Token) (st : List Int) (l : Option LastKind)
    (h : simValue ops data toks = .ok (st, l)) :
    simFormal ops toks = .ok (st.length, l) :=
  simValueAux_to_formal ops data toks [] none st l h

/-! ## Claim C1 -/

/-- Claim C1, counterexample: on the state `[BEG, 3, 4, DeltaTime 1]` the
replay gives depth 3 with a DeltaTime last, but the FORMAL legality mode
reports the TS arity bound `Max = 3`, not `depth − 1 = 2` as claimed. -/
theorem c1_counterexample :
    simFormal exOps dtToks = .ok (3, some .dt) ∧
    validNextTokenFormal (mkRPNBuilder dtToks exOps 100) =
      .ok { Constant := false, DeltaTime := false, Feature := false
            CSOperator := { Max := none, Min := none }
            TSOperator := { Max := some 3, Min := none }
            SEP := false } ∧
    (some 3 : Option Nat) ≠ some (3 - 1) :=
  ⟨rfl, rfl, by decide⟩

/-- Claim C1 (amended): when the last non-marker token is a DeltaTime and
the replayed depth `d` is at least 2, both legality modes make Constant,
DeltaTime, Feature and SEP illegal and give the CS class no bound, and the
TS class is bounded by `d` in the formal mode but by `d − 1` in the value
mode; the value mode additionally needs the sequence to sit strictly
inside the length cap (at the cap it fails with ZeroDivisionError). -/
theorem c1_amended (b : RPNBuilder) (data : String → Option Int)
    (st : List Int)
    (hv : simValue b.ops data b.tokenList = .ok (st, some .dt))
    (hd : 2 ≤ st.length) (hlen : b.tokenList.length ≠ b.maxLen) :
    validNextTokenFormal b =
      .ok { Constant := false, DeltaTime := false, Feature := false
            CSOperator := { Max := none, Min := none }
            TSOperator := { Max := some st.length, Min := none }
            SEP := false } ∧
    validNextTokenValue b data =
      .ok { Constant := false, DeltaTime := false, Feature := false
            CSOperator := { Max := none, Min := none }
            TSOperator := { Max := some (st.length - 1), Min := none }
            SEP := false } := by
  have hf := simValue_to_formal b.ops data b.tokenList st (some .dt) hv
  have hne : ¬ (st.length = 1) := by omega
  constructor
  · unfold validNextTokenFormal
    rw [hf]
    simp [hne]
  · unfold validNextTokenValue
    rw [hv]
    have h0 : ¬ (((b.maxLen : Int) - (b.tokenList.length : Int)) = 0) := by
      omega
    simp [h0, hne]

/-- Witness for the amended C1 at the concrete `dtToks` state. -/
theorem c1_amended_witness :
    validNextTokenFormal (mkRPNBuilder dtToks exOps 100) =
      .ok { Constant := false, DeltaTime := false, Feature := false
            CSOperator := { Max := none, Min := none }
            TSOperator := { Max := some 3, Min := none }
            SEP := false } ∧
    validNextTokenValue (mkRPNBuilder dtToks exOps 100) noData =
      .ok { Constant := false, DeltaTime := false, Feature := false
            CSOperator := { Max := none, Min := none }
            TSOperator := { Max := some 2, Min := none }
            SEP := false } :=
  c1_amended (mkRPNBuilder dtToks exOps 100) noData [1, 4, 3] rfl
    (by decide) (by decide)

/-! ## Claim C2 -/

/-- Claim C2, counterexample: on `[BEG, 3, 4, DeltaTime 1]` (with bindings
resolving every feature — there are none) the two legality modes return
different records: the formal mode bounds TS operators by 3, the value
mode by 2. -/
theorem c2_counterexample :
    validNextTokenFormal (mkRPNBuilder dtToks exOps 50) =
      .ok { Constant := false, DeltaTime := false, Feature := false
            CSOperator := { Max := none, Min := none }
            TSOperator := { Max := some 3, Min := none }
            SEP := false } ∧
    validNextTokenValue (mkRPNBuilder dtToks exOps 50) noData =
      .ok { Constant := false, DeltaTime := false, Feature := false
            CSOperator := { Max := none, Min := none }
            TSOperator := { Max := some 2, Min := none }
            SEP := false } ∧
    ({ Constant := false, DeltaTime := false, Feature := false
       CSOperator := { Max := none, Min := none }
       TSOperator := { Max := some 3, Min := none }
       SEP := false } : LegalityRecord) ≠
      { Constant := false, DeltaTime := false, Feature := false
        CSOperator := { Max := none, Min := none }
        TSOperator := { Max := some 2, Min := none }
        SEP := false } :=
  ⟨rfl, rfl, by decide⟩

/-- Claim C2 (amended): whenever the value replay succeeds and the
sequence sits strictly inside the length cap, the two modes return
records agreeing on every field except the TS bound in the
last-token-is-DeltaTime case with depth ≠ 1, where the formal mode
reports `depth` and the value mode `depth − 1`. -/
theorem c2_amended (b : RPNBuilder) (data : String → Option Int)
    (st : List Int) (l : Option LastKind)
    (hv : simValue b.ops data b.tokenList = .ok (st, l))
    (hlen : b.tokenList.length ≠ b.maxLen) :
    ∃ rF rV, validNextTokenFormal b = .ok rF ∧
      validNextTokenValue b data = .ok rV ∧
      rF.Constant = rV.Constant ∧ rF.DeltaTime = rV.DeltaTime ∧
      rF.Feature = rV.Feature ∧ rF.CSOperator = rV.CSOperator ∧
      rF.SEP = rV.SEP ∧
      ((l = some .dt ∧ st.length ≠ 1) →
        rF.TSOperator = { Max := some st.length, Min := none } ∧
        rV.TSOperator = { Max := some (st.length - 1), Min := none }) ∧
      (¬ (l = some .dt ∧ st.length ≠ 1) → rF.TSOperator = rV.TSOperator) := by
  have hf := simValue_to_formal b.ops data b.tokenList st l hv
  have h0 : ¬ (((b.maxLen : Int) - (b.tokenList.length : Int)) = 0) := by
    omega
  unfold validNextTokenFormal validNextTokenValue
  rw [hf, hv]
  dsimp only
  rw [if_neg h0]
  by_cases h1 : st.length = 1
  · simp only [if_pos h1]
    exact ⟨_, _, rfl, rfl, rfl, rfl, rfl, rfl, rfl,
      fun hc => absurd h1 hc.2, fun _ => rfl⟩
  · simp only [if_neg h1]
    cases l with
    | none =>
      exact ⟨_, _, rfl, rfl, rfl, rfl, rfl, rfl, rfl,
        fun hc => by simp at hc, fun _ => rfl⟩
    | some lk =>
      cases lk with
      | const =>
        exact ⟨_, _, rfl, rfl, rfl, rfl, rfl, rfl, rfl,
          fun hc => by simp at hc, fun _ => rfl⟩
      | feat =>
        exact ⟨_, _, rfl, rfl, rfl, rfl, rfl, rfl, rfl,
          fun hc => by simp at hc, fun _ => rfl⟩
      | op =>
        exact ⟨_, _, rfl, rfl, rfl, rfl, rfl, rfl, rfl,
          fun hc => by simp at hc, fun _ => rfl⟩
      | dt =>
        exact ⟨_, _, rfl, rfl, rfl, rfl, rfl, rfl, rfl,
          fun _ => ⟨rfl, rfl⟩, fun hn => absurd ⟨rfl, h1⟩ hn⟩

/-- Witness for the amended C2 at the concrete `dtToks` state. -/
theorem c2_amended_witness :
    ∃ rF rV,
      validNextTokenFormal (mkRPNBuilder dtToks exOps 50) = .ok rF ∧
      validNextTokenValue (mkRPNBuilder dtToks exOps 50) noData = .ok rV ∧
      rF.Constant = rV.Constant ∧ rF.DeltaTime = rV.DeltaTime ∧
      rF.Feature = rV.Feature ∧ rF.CSOperator = rV.CSOperator ∧
      rF.SEP = rV.SEP ∧
      ((some LastKind.dt = some LastKind.dt ∧
          (List.length [(1 : Int), 4, 3]) ≠ 1) →
        rF.TSOperator = { Max := some (List.length [(1 : Int), 4, 3]), Min := none } ∧
        rV.TSOperator = { Max := some (List.length [(1 : Int), 4, 3] - 1), Min := none }) ∧
      (¬ (some LastKind.dt = some LastKind.dt ∧
          (List.length [(1 : Int), 4, 3]) ≠ 1) →
        rF.TSOperator = rV.TSOperator) :=
  c2_amended (mkRPNBuilder dtToks exOps 50) noData [1, 4, 3] (some .dt) rfl
    (by decide)

/-! ## Claim C7 -/

/-- Claim C7, counterexample: a state at the length cap whose replay depth
is exactly 1 — the formal mode returns the terminated-legal record, but
the value mode raises ZeroDivisionError instead of returning it. -/
theorem c7_counterexample :
    simValue exOps noData [Token.seqInd .BEG, Token.constant 3] =
      .ok ([3], some .const) ∧
    validNextTokenValue
        (mkRPNBuilder [Token.seqInd .BEG, Token.constant 3] exOps 2) noData =
      .error .zeroDivisionError ∧
    (Except.error .zeroDivisionError : Except PyError LegalityRecord) ≠
      .ok terminatedRecord :=
  ⟨rfl, rfl, fun h => Except.noConfusion h⟩

/-- Claim C7 (amended): the depth==1 row takes precedence over every
last-token rule — unconditionally in the formal mode, and in the value
mode provided the sequence sits strictly inside the length cap (at the cap
the dead `MinArity4Choose` division raises ZeroDivisionError first). -/
theorem c7_amended (b : RPNBuilder) (data : String → Option Int)
    (lf lv : Option LastKind) (st : List Int) :
    (simFormal b.ops b.tokenList = .ok (1, lf) →
      validNextTokenFormal b = .ok terminatedRecord) ∧
    (simValue b.ops data b.tokenList = .ok (st, lv) → st.length = 1 →
      b.tokenList.length ≠ b.maxLen →
      validNextTokenValue b data = .ok terminatedRecord) := by
  constructor
  · intro hf
    unfold validNextTokenFormal
    rw [hf]
    rfl
  · intro hv h1 hlen
    have h0 : ¬ (((b.maxLen : Int) - (b.tokenList.length : Int)) = 0) := by
      omega
    unfold validNextTokenValue
    rw [hv]
    dsimp only
    rw [if_neg h0, if_pos h1]
    rfl

/-- Witness for the amended C7 on `[BEG, Constant 3]` below the cap. -/
theorem c7_amended_witness :
    validNextTokenFormal
        (mkRPNBuilder [Token.seqInd .BEG, Token.constant 3] exOps 5) =
      .ok terminatedRecord ∧
    validNextTokenValue
        (mkRPNBuilder [Token.seqInd .BEG, Token.constant 3] exOps 5) noData =
      .ok terminatedRecord :=
  ⟨(c7_amended (mkRPNBuilder [Token.seqInd .BEG, Token.constant 3] exOps 5)
      noData (some .const) (some .const) [3]).1 rfl,
   (c7_amended (mkRPNBuilder [Token.seqInd .BEG, Token.constant 3] exOps 5)
      noData (some .const) (some .const) [3]).2 rfl rfl (by decide)⟩

/-! ## Claim C3 -/

/-- Claim C3 is violated by the code: on `[BEG, 3, 4, DeltaTime 1]` the
formal legality record bounds TS operators by 3, yet `add_token_formal`
APPENDS a TS operator of arity 4 and raises nothing, because its guard is
`Max is None and Max < n_args` (a copy-paste slip of the CS branch's
`or`), which is false whenever the bound is not `None`. -/
theorem c3_bug_appends_oversized_ts_operator :
    (validNextTokenFormal (mkRPNBuilder dtToks exOps 100)).map
        (fun r => r.TSOperator.Max) = .ok (some 3) ∧
    tsOp4.nArgs = 4 ∧
    addTokenFormal (mkRPNBuilder dtToks exOps 100) (.operator tsOp4) =
      ({ tokenList := dtToks ++ [.operator tsOp4]
         expression := strexpOf dtToks ++ ["tsop4"]
         ops := exOps
         maxLen := 100 }, none) :=
  ⟨rfl, rfl, rfl⟩

/-! ## Claims C4 and C9: add_token outcome analysis -/

/-- Appending one token to the rendered mirror source: markers render
nothing, every other token appends its rendering. -/
theorem strexpOf_append (l : List Token) (t : Token) :
    strexpOf (l ++ [t]) =
      strexpOf l ++ (match t with | .seqInd _ => [] | _ => [t.render]) := by
  induction l with
  | nil => cases t <;> rfl
  | cons x xs ih => cases x <;> simp [strexpOf, ih]

/-- Every run of `add_token_formal` either raises and returns the state
untouched, or appends a non-marker token to both the token list and the
mirror, or appends a marker to the token list alone. -/
theorem addTokenFormal_outcomes (b : RPNBuilder) (t : Token) :
    (∃ e, addTokenFormal b t = (b, some e)) ∨
    ((∀ i, t ≠ .seqInd i) ∧
      addTokenFormal b t =
        ({ b with tokenList := b.tokenList ++ [t]
                  expression := b.expression ++ [t.render] }, none)) ∨
    (∃ i, t = .seqInd i ∧
      addTokenFormal b t = ({ b with tokenList := b.tokenList ++ [t] }, none)) := by
  unfold addTokenFormal
  split
  · split
    · exact .inl ⟨_, rfl⟩
    · cases t with
      | constant c =>
        dsimp only
        split
        · exact .inr (.inl ⟨fun i h => Token.noConfusion h, rfl⟩)
        · exact .inl ⟨_, rfl⟩
      | deltaTime d =>
        dsimp only
        split
        · exact .inr (.inl ⟨fun i h => Token.noConfusion h, rfl⟩)
        · exact .inl ⟨_, rfl⟩
      | feature f =>
        dsimp only
        split
        · exact .inr (.inl ⟨fun i h => Token.noConfusion h, rfl⟩)
        · exact .inl ⟨_, rfl⟩
      | operator op =>
        dsimp only
        cases op.Optype
        · dsimp only
          split
          · exact .inl ⟨_, rfl⟩
          · split
            · exact .inl ⟨_, rfl⟩
            · exact .inr (.inl ⟨fun i h => Token.noConfusion h, rfl⟩)
        · dsimp only
          split
          · exact .inl ⟨_, rfl⟩
          · exact .inr (.inl ⟨fun i h => Token.noConfusion h, rfl⟩)
      | seqInd i =>
        dsimp only
        split
        · exact .inr (.inr ⟨i, rfl, rfl⟩)
        · exact .inl ⟨_, rfl⟩
  · exact .inl ⟨_, rfl⟩

/-- Same outcome analysis for `add_token_value`. -/
theorem addTokenValue_outcomes (b : RPNBuilder) (data : String → Option Int)
    (t : Token) :
    (∃ e, addTokenValue b data t = (b, some e)) ∨
    ((∀ i, t ≠ .seqInd i) ∧
      addTokenValue b data t =
        ({ b with tokenList := b.tokenList ++ [t]
                  expression := b.expression ++ [t.render] }, none)) ∨
    (∃ i, t = .seqInd i ∧
      addTokenValue b data t =
        ({ b with tokenList := b.tokenList ++ [t] }, none)) := by
  unfold addTokenValue
  split
  · split
    · exact .inl ⟨_, rfl⟩
    · cases t with
      | constant c =>
        dsimp only
        split
        · exact .inr (.inl ⟨fun i h => Token.noConfusion h, rfl⟩)
        · exact .inl ⟨_, rfl⟩
      | deltaTime d =>
        dsimp only
        split
        · exact .inr (.inl ⟨fun i h => Token.noConfusion h, rfl⟩)
        · exact .inl ⟨_, rfl⟩
      | feature f =>
        dsimp only
        split
        · exact .inr (.inl ⟨fun i h => Token.noConfusion h, rfl⟩)
        · exact .inl ⟨_, rfl⟩
      | operator op =>
        dsimp only
        cases op.Optype
        · dsimp only
          split
          · exact .inl ⟨_, rfl⟩
          · exact .inr (.inl ⟨fun i h => Token.noConfusion h, rfl⟩)
        · dsimp only
          split
          · exact .inl ⟨_, rfl⟩
          · exact .inr (.inl ⟨fun i h => Token.noConfusion h, rfl⟩)
      | seqInd i =>
        dsimp only
        split
        · exact .inr (.inr ⟨i, rfl, rfl⟩)
        · exact .inl ⟨_, rfl⟩
  · exact .inl ⟨_, rfl⟩

/-- Claim C4: at the length cap both add operations fail with the
"expression is full" error and return the state unchanged; every failing
call (in either mode) leaves the token list and the mirror untouched; and
every successful call appends the token to the token list and, unless it
is a marker, its rendering to the mirror. -/
theorem c4_add_token_atomic (b : RPNBuilder) (data : String → Option Int)
    (t : Token) :
    (b.tokenList.length = b.maxLen →
      addTokenFormal b t = (b, some (.valueError "The expression is full")) ∧
      addTokenValue b data t = (b, some (.valueError "The expression is full"))) ∧
    ((addTokenFormal b t).2.isSome →
      (addTokenFormal b t).1.tokenList = b.tokenList ∧
      (addTokenFormal b t).1.expression = b.expression) ∧
    ((addTokenValue b data t).2.isSome →
      (addTokenValue b data t).1.tokenList = b.tokenList ∧
      (addTokenValue b data t).1.expression = b.expression) ∧
    ((addTokenFormal b t).2 = none →
      (addTokenFormal b t).1.tokenList = b.tokenList ++ [t] ∧
      (addTokenFormal b t).1.expression =
        b.expression ++ (match t with | .seqInd _ => [] | _ => [t.render])) ∧
    ((addTokenValue b data t).2 = none →
      (addTokenValue b data t).1.tokenList = b.tokenList ++ [t] ∧
      (addTokenValue b data t).1.expression =
        b.expression ++ (match t with | .seqInd _ => [] | _ => [t.render])) := by
  refine ⟨?_, ?_, ?_, ?_, ?_⟩
  · intro hfull
    have hnl : ¬ (b.tokenList.length < b.maxLen) := by omega
    constructor
    · unfold addTokenFormal
      rw [if_neg hnl]
    · unfold addTokenValue
      rw [if_neg hnl]
  · rcases addTokenFormal_outcomes b t with ⟨e, he⟩ | ⟨hni, he⟩ | ⟨i, hi, he⟩
    · intro _; rw [he]; exact ⟨rfl, rfl⟩
    · intro hs; rw [he] at hs; simp at hs
    · intro hs; rw [he] at hs; simp at hs
  · rcases addTokenValue_outcomes b data t with ⟨e, he⟩ | ⟨hni, he⟩ | ⟨i, hi, he⟩
    · intro _; rw [he]; exact ⟨rfl, rfl⟩
    · intro hs; rw [he] at hs; simp at hs
    · intro hs; rw [he] at hs; simp at hs
  · rcases addTokenFormal_outcomes b t with ⟨e, he⟩ | ⟨hni, he⟩ | ⟨i, hi, he⟩
    · intro hn; rw [he] at hn; simp at hn
    · intro _
      rw [he]
      refine ⟨rfl, ?_⟩
      cases t with
      | seqInd i => exact absurd rfl (hni i)
      | constant c => rfl
      | deltaTime d => rfl
      | feature f => rfl
      | operator op => rfl
    · intro _
      subst hi
      rw [he]
      exact ⟨rfl, by simp⟩
  · rcases addTokenValue_outcomes b data t with ⟨e, he⟩ | ⟨hni, he⟩ | ⟨i, hi, he⟩
    · intro hn; rw [he] at hn; simp at hn
    · intro _
      rw [he]
      refine ⟨rfl, ?_⟩
      cases t with
      | seqInd i => exact absurd rfl (hni i)
      | constant c => rfl
      | deltaTime d => rfl
      | feature f => rfl
      | operator op => rfl
    · intro _
      subst hi
      rw [he]
      exact ⟨rfl, by simp⟩

/-- Witness for C4 at a builder already at its cap. -/
theorem c4_add_token_atomic_witness :
    addTokenFormal (mkRPNBuilder dtToks exOps 4) (Token.constant 1) =
      (mkRPNBuilder dtToks exOps 4,
        some (.valueError "The expression is full")) ∧
    addTokenValue (mkRPNBuilder dtToks exOps 4) noData (Token.constant 1) =
      (mkRPNBuilder dtToks exOps 4,
        some (.valueError "The expression is full")) :=
  (c4_add_token_atomic (mkRPNBuilder dtToks exOps 4) noData
    (Token.constant 1)).1 rfl

/-- Claim C9: the mirror invariant.  `strexpOf` is precisely "render each
non-marker token, in order"; it is established by construction and
preserved by both add operations (markers are appended to the token list
only, everything else to both). -/
theorem c9_mirror_invariant :
    (∀ tl : List Token,
      strexpOf tl =
        (tl.filter (fun t => match t with | .seqInd _ => false | _ => true)).map
          Token.render) ∧
    (∀ (tl : List Token) (ops : OpsDict) (ml : Nat),
      (mkRPNBuilder tl ops ml).expression =
        strexpOf (mkRPNBuilder tl ops ml).tokenList) ∧
    (∀ (b : RPNBuilder) (t : Token),
      b.expression = strexpOf b.tokenList →
      (addTokenFormal b t).1.expression =
        strexpOf (addTokenFormal b t).1.tokenList) ∧
    (∀ (b : RPNBuilder) (data : String → Option Int) (t : Token),
      b.expression = strexpOf b.tokenList →
      (addTokenValue b data t).1.expression =
        strexpOf (addTokenValue b data t).1.tokenList) := by
  refine ⟨?_, ?_, ?_, ?_⟩
  · intro tl
    induction tl with
    | nil => rfl
    | cons x xs ih => cases x <;> simp [strexpOf, ih]
  · intro tl ops ml
    rfl
  · intro b t hinv
    rcases addTokenFormal_outcomes b t with ⟨e, he⟩ | ⟨hni, he⟩ | ⟨i, hi, he⟩
    · rw [he]; exact hinv
    · rw [he]
      dsimp only
      rw [strexpOf_append, hinv]
      cases t with
      | seqInd i => exact absurd rfl (hni i)
      | constant c => rfl
      | deltaTime d => rfl
      | feature f => rfl
      | operator op => rfl
    · subst hi
      rw [he]
      dsimp only
      rw [strexpOf_append, hinv]
      simp
  · intro b data t hinv
    rcases addTokenValue_outcomes b data t with ⟨e, he⟩ | ⟨hni, he⟩ | ⟨i, hi, he⟩
    · rw [he]; exact hinv
    · rw [he]
      dsimp only
      rw [strexpOf_append, hinv]
      cases t with
      | seqInd i => exact absurd rfl (hni i)
      | constant c => rfl
      | deltaTime d => rfl
      | feature f => rfl
      | operator op => rfl
    · subst hi
      rw [he]
      dsimp only
      rw [strexpOf_append, hinv]
      simp

/-- Witness for C9: the invariant after a successful append. -/
theorem c9_mirror_invariant_witness :
    (addTokenFormal (mkRPNBuilder dtToks exOps 100) (Token.operator tsOp4)).1.expression =
      strexpOf (addTokenFormal (mkRPNBuilder dtToks exOps 100)
        (Token.operator tsOp4)).1.tokenList :=
  c9_mirror_invariant.2.2.1 (mkRPNBuilder dtToks exOps 100)
    (Token.operator tsOp4) rfl

/-! ## Claim C8 -/

/-- Skipping a replicated segment of a concatenation. -/
theorem getElem_replicate_skip {α : Type} (n : Nat) (b : α) (rest : List α)
    (i : Nat) : (List.replicate n b ++ rest)[n + i]? = rest[i]? := by
  rw [List.getElem?_append_right (by simp)]
  congr 1
  simp

/-- Skipping a mapped segment of a concatenation. -/
theorem getElem_map_skip (l : List String) (f : String → Bool)
    (rest : List Bool) (i : Nat) :
    (l.map f ++ rest)[l.length + i]? = rest[i]? := by
  rw [List.getElem?_append_right (by simp)]
  congr 1
  simp

/-- Reading inside a replicated segment. -/
theorem getElem_replicate_lt {α : Type} (n : Nat) (b : α) (i : Nat)
    (h : i < n) : (List.replicate n b)[i]? = some b := by
  rw [List.getElem?_eq_getElem (by simpa using h)]
  simp

/-- Claim C8: in the mask over the action catalog, an operator entry is
`true` iff its class's Max bound is not `None` and the operator's arity is
at most that bound; a `None` class bound makes every entry of the class
`false` regardless of arity.  Stated for the CS segment (at offset
constants+features+deltaTimes) and the TS segment (following the CS one). -/
theorem c8_mask_operator_entries (Constants : Option (List Int))
    (Features : Option (List String)) (DeltaTimes : Option (List Int))
    (csl tsl : List String) (fad : String → Nat) (vd : LegalityRecord) :
    (∀ i op, csl[i]? = some op →
      (((MaskActionSpace Constants Features DeltaTimes (some csl) (some tsl)
            fad vd)[Constants.elim 0 List.length +
              (Features.elim 0 List.length +
                (DeltaTimes.elim 0 List.length + i))]? = some true) ↔
          ∃ m, vd.CSOperator.Max = some m ∧ fad op ≤ m) ∧
      (vd.CSOperator.Max = none →
        (MaskActionSpace Constants Features DeltaTimes (some csl) (some tsl)
            fad vd)[Constants.elim 0 List.length +
              (Features.elim 0 List.length +
                (DeltaTimes.elim 0 List.length + i))]? = some false)) ∧
    (∀ i op, tsl[i]? = some op →
      (((MaskActionSpace Constants Features DeltaTimes (some csl) (some tsl)
            fad vd)[Constants.elim 0 List.length +
              (Features.elim 0 List.length +
                (DeltaTimes.elim 0 List.length + (csl.length + i)))]? =
            some true) ↔
          ∃ m, vd.TSOperator.Max = some m ∧ fad op ≤ m) ∧
      (vd.TSOperator.Max = none →
        (MaskActionSpace Constants Features DeltaTimes (some csl) (some tsl)
            fad vd)[Constants.elim 0 List.length +
              (Features.elim 0 List.length +
                (DeltaTimes.elim 0 List.length + (csl.length + i)))]? =
          some false)) := by
  refine ⟨fun i op hop => ?_, fun i op hop => ?_⟩
  · have hlt : i < csl.length := (List.getElem?_eq_some.mp hop).1
    unfold MaskActionSpace
    rcases Constants with _ | cs <;> rcases Features with _ | fs <;>
      rcases DeltaTimes with _ | ds <;>
        dsimp only [Option.elim] <;>
        simp only [List.append_assoc, List.nil_append, Nat.zero_add,
          getElem_replicate_skip] <;>
        rcases hm : vd.CSOperator.Max with _ | m <;> dsimp only
    all_goals first
      | (refine ⟨?_, fun _ => ?_⟩ <;>
          rw [List.getElem?_append_left (by simp [hlt]),
            getElem_replicate_lt _ _ _ hlt] <;>
          simp [hm])
      | (unfold MaskOPSpace
         rw [hm]
         dsimp only
         refine ⟨?_, ?_⟩
         · rw [List.getElem?_append_left (by simp [hlt]),
             List.getElem?_map, hop]
           simp [hm]
         · intro hcontra
           exact Option.noConfusion hcontra)
  · have hlt : i < tsl.length := (List.getElem?_eq_some.mp hop).1
    unfold MaskActionSpace
    rcases Constants with _ | cs <;> rcases Features with _ | fs <;>
      rcases DeltaTimes with _ | ds <;>
        dsimp only [Option.elim] <;>
        simp only [List.append_assoc, List.nil_append, Nat.zero_add,
          getElem_replicate_skip] <;>
        rcases hmcs : vd.CSOperator.Max with _ | mcs <;> dsimp only <;>
        (first
          | simp only [getElem_replicate_skip]
          | (unfold MaskOPSpace
             rw [hmcs]
             dsimp only
             simp only [getElem_map_skip])) <;>
        rcases hm : vd.TSOperator.Max with _ | m <;> dsimp only
    all_goals first
      | (refine ⟨?_, fun _ => ?_⟩ <;>
          rw [List.getElem?_append_left (by simp [hlt]),
            getElem_replicate_lt _ _ _ hlt] <;>
          simp [hm])
      | (refine ⟨?_, fun hcontra => absurd hcontra (by simp)⟩
         first
           | (unfold MaskOPSpace
              rw [hm]
              dsimp only)
           | skip
         rw [List.getElem?_append_left (by simp [hlt]),
           List.getElem?_map, hop]
         simp)

/-- Witness for C8 on a two-operator catalog with CS bound 2 and TS bound
`None`. -/
theorem c8_mask_operator_entries_witness :
    (((MaskActionSpace (some [1]) none none (some ["add"]) (some ["ref"])
        (fun _ => 2)
        { Constant := true, DeltaTime := true, Feature := true
          CSOperator := { Max := some 2, Min := none }
          TSOperator := { Max := none, Min := none }
          SEP := false })[(some [(1 : Int)]).elim 0 List.length +
            ((none : Option (List String)).elim 0 List.length +
              ((none : Option (List Int)).elim 0 List.length + 0))]? =
        some true) ↔
      ∃ m, ({ Constant := true, DeltaTime := true, Feature := true
              CSOperator := { Max := some 2, Min := none }
              TSOperator := { Max := none, Min := none }
              SEP := false } : LegalityRecord).CSOperator.Max = some m ∧
        (fun (_ : String) => 2) "add" ≤ m) :=
  ((c8_mask_operator_entries (some [1]) none none ["add"] ["ref"] (fun _ => 2)
    { Constant := true, DeltaTime := true, Feature := true
      CSOperator := { Max := some 2, Min := none }
      TSOperator := { Max := none, Min := none }
      SEP := false }).1 0 "add" rfl).1

/-! ## Claim C5 -/

/-- Claim C5, counterexample: with head length 2 and max arity 2 the exact
Karva total is 5, yet a six-entry operator-free expression VALIDATES —
the code only rejects lengths strictly below head + tail. -/
theorem c5_counterexample :
    validate_expression c5Ops 2 c5Expr = some true ∧
    maxArityOf c5Ops = some 2 ∧
    c5Expr.length = 6 ∧
    (2 + (2 * (2 - 1) + 1) : Nat) = 5 ∧ (6 : Nat) ≠ 5 :=
  ⟨rfl, rfl, rfl, rfl, by decide⟩

/-- Claim C5 (amended): validation succeeds iff the length strictly
exceeds the head length, the length is AT LEAST head + tail (longer
expressions are accepted, not rejected), and no tail entry is an
operator. -/
theorem c5_amended (ops : OpsDict) (head : Nat) (expr : List KTok) (ma : Nat)
    (hma : maxArityOf ops = some ma) :
    validate_expression ops head expr = some true ↔
      (head < expr.length ∧
        (head : Int) + ((head : Int) * ((ma : Int) - 1) + 1) ≤
          (expr.length : Int) ∧
        ∀ t ∈ expr.drop head, ktokInOps ops t = false) := by
  unfold validate_expression
  rw [hma]
  dsimp only
  split_ifs with h1 h2 h3
  · constructor
    · intro h; exact absurd h (by simp)
    · rintro ⟨hlt, -, -⟩; exact absurd hlt (by omega)
  · constructor
    · intro h; exact absurd h (by simp)
    · rintro ⟨-, hlen2, -⟩; exact absurd hlen2 (not_le.mpr h2)
  · constructor
    · intro h; exact absurd h (by simp)
    · rintro ⟨-, -, hall⟩
      obtain ⟨t, ht, htrue⟩ := List.any_eq_true.mp h3
      exact absurd (hall t ht) (by simp [htrue])
  · constructor
    · refine fun _ => ⟨by omega, not_lt.mp h2, fun t ht => ?_⟩
      cases hb : ktokInOps ops t
      · rfl
      · exact absurd (List.any_eq_true.mpr ⟨t, ht, hb⟩) h3
    · exact fun _ => rfl

/-- Witness for the amended C5 at the exact-length expression. -/
theorem c5_amended_witness :
    validate_expression c5Ops 2 c5Exact = some true ↔
      (2 < c5Exact.length ∧
        (2 : Int) + ((2 : Int) * ((2 : Int) - 1) + 1) ≤ (c5Exact.length : Int) ∧
        ∀ t ∈ c5Exact.drop 2, ktokInOps c5Ops t = false) :=
  c5_amended c5Ops 2 c5Exact 2 rfl

/-! ## Claims C6 and C10: the Karva parse -/

/-- `parseK` returns exactly as many trees as requested. -/
theorem parseK_len (ops : OpsDict) :
    ∀ (f k : Nat) (l : List KTok) (cs : List KTree) (r : List KTok),
      parseK f k ops l = some (cs, r) → cs.length = k := by
  intro f
  induction f with
  | zero =>
    intro k l cs r h
    cases k with
    | zero =>
      obtain ⟨rfl, rfl⟩ : ([] : List KTree) = cs ∧ l = r := by
        simpa [parseK] using h
      rfl
    | succ k => exact absurd h (by simp [parseK])
  | succ f ih =>
    intro k l cs r h
    cases k with
    | zero =>
      obtain ⟨rfl, rfl⟩ : ([] : List KTree) = cs ∧ l = r := by
        simpa [parseK] using h
      rfl
    | succ k =>
      cases l with
      | nil => exact absurd h (by simp [parseK])
      | cons t rest =>
        cases t with
        | num n =>
          simp only [parseK] at h
          cases hh : parseK f k ops rest with
          | none => rw [hh] at h; exact absurd h (by simp)
          | some pr =>
            obtain ⟨cs2, r2⟩ := pr
            rw [hh] at h
            obtain ⟨rfl, rfl⟩ :
                KTree.node (KTok.num n) [] :: cs2 = cs ∧ r2 = r := by
              simpa using h
            simp [ih k rest cs2 r2 hh]
        | str s =>
          simp only [parseK] at h
          cases hl : List.lookup s ops with
          | none =>
            rw [hl] at h
            dsimp only at h
            cases hh : parseK f k ops rest with
            | none => rw [hh] at h; exact absurd h (by simp)
            | some pr =>
              obtain ⟨cs2, r2⟩ := pr
              rw [hh] at h
              obtain ⟨rfl, rfl⟩ :
                  KTree.node (KTok.str s) [] :: cs2 = cs ∧ r2 = r := by
                simpa using h
              simp [ih k rest cs2 r2 hh]
          | some pr =>
            obtain ⟨fi, a⟩ := pr
            rw [hl] at h
            dsimp only at h
            cases h1 : parseK f a ops rest with
            | none => rw [h1] at h; exact absurd h (by simp)
            | some pr1 =>
              obtain ⟨cs1, r1⟩ := pr1
              rw [h1] at h
              dsimp only at h
              cases h2 : parseK f k ops r1 with
              | none => rw [h2] at h; exact absurd h (by simp)
              | some pr2 =>
                obtain ⟨cs2, r2⟩ := pr2
                rw [h2] at h
                obtain ⟨rfl, rfl⟩ :
                    KTree.node (KTok.str s) cs1 :: cs2 = cs ∧ r2 = r := by
                  simpa using h
                simp [ih k r1 cs2 r2 h2]

/-- A successful `parseK` run consumes a prefix, and re-running on that
prefix followed by ANY remainder, with at least as much fuel as the prefix
is long, succeeds with the same trees and the new remainder.  This is both
the frame property (the parse never looks past what it consumes) and the
fuel-sufficiency bound. -/
theorem parseK_frame (ops : OpsDict) :
    ∀ (f k : Nat) (l : List KTok) (cs : List KTree) (r : List KTok),
      parseK f k ops l = some (cs, r) →
      ∃ p, l = p ++ r ∧
        ∀ (g : Nat) (r' : List KTok), p.length ≤ g →
          parseK g k ops (p ++ r') = some (cs, r') := by
  intro f
  induction f with
  | zero =>
    intro k l cs r h
    cases k with
    | zero =>
      obtain ⟨rfl, rfl⟩ : ([] : List KTree) = cs ∧ l = r := by
        simpa [parseK] using h
      exact ⟨[], rfl, fun g r' _ => by simp [parseK]⟩
    | succ k => exact absurd h (by simp [parseK])
  | succ f ih =>
    intro k l cs r h
    cases k with
    | zero =>
      obtain ⟨rfl, rfl⟩ : ([] : List KTree) = cs ∧ l = r := by
        simpa [parseK] using h
      exact ⟨[], rfl, fun g r' _ => by simp [parseK]⟩
    | succ k =>
      cases l with
      | nil => exact absurd h (by simp [parseK])
      | cons t rest =>
        cases t with
        | num n =>
          simp only [parseK] at h
          cases hh : parseK f k ops rest with
          | none => rw [hh] at h; exact absurd h (by simp)
          | some pr =>
            obtain ⟨cs2, r2⟩ := pr
            rw [hh] at h
            obtain ⟨rfl, rfl⟩ :
                KTree.node (KTok.num n) [] :: cs2 = cs ∧ r2 = r := by
              simpa using h
            obtain ⟨p2, hrest, hframe⟩ := ih k rest cs2 r2 hh
            refine ⟨KTok.num n :: p2, by rw [hrest]; rfl, ?_⟩
            intro g r' hg
            simp only [List.length_cons] at hg
            cases g with
            | zero => omega
            | succ g' =>
              simp only [List.cons_append, parseK, List.append_eq]
              rw [hframe g' r' (by omega)]
        | str s =>
          simp only [parseK] at h
          cases hl : List.lookup s ops with
          | none =>
            rw [hl] at h
            dsimp only at h
            cases hh : parseK f k ops rest with
            | none => rw [hh] at h; exact absurd h (by simp)
            | some pr =>
              obtain ⟨cs2, r2⟩ := pr
              rw [hh] at h
              obtain ⟨rfl, rfl⟩ :
                  KTree.node (KTok.str s) [] :: cs2 = cs ∧ r2 = r := by
                simpa using h
              obtain ⟨p2, hrest, hframe⟩ := ih k rest cs2 r2 hh
              refine ⟨KTok.str s :: p2, by rw [hrest]; rfl, ?_⟩
              intro g r' hg
              simp only [List.length_cons] at hg
              cases g with
              | zero => omega
              | succ g' =>
                simp only [List.cons_append, parseK, List.append_eq]
                rw [hl]
                dsimp only
                rw [hframe g' r' (by omega)]
          | some pr =>
            obtain ⟨fi, a⟩ := pr
            rw [hl] at h
            dsimp only at h
            cases h1 : parseK f a ops rest with
            | none => rw [h1] at h; exact absurd h (by simp)
            | some pr1 =>
              obtain ⟨cs1, r1⟩ := pr1
              rw [h1] at h
              dsimp only at h
              cases h2 : parseK f k ops r1 with
              | none => rw [h2] at h; exact absurd h (by simp)
              | some pr2 =>
                obtain ⟨cs2, r2⟩ := pr2
                rw [h2] at h
                obtain ⟨rfl, rfl⟩ :
                    KTree.node (KTok.str s) cs1 :: cs2 = cs ∧ r2 = r := by
                  simpa using h
                obtain ⟨p1, hrest, hf1⟩ := ih a rest cs1 r1 h1
                obtain ⟨p2, hr1, hf2⟩ := ih k r1 cs2 r2 h2
                refine ⟨KTok.str s :: (p1 ++ p2), ?_, ?_⟩
                · rw [hrest, hr1]
                  simp [List.append_assoc]
                · intro g r' hg
                  simp only [List.length_cons, List.length_append] at hg
                  cases g with
                  | zero => omega
                  | succ g' =>
                    simp only [List.cons_append, parseK, List.append_eq]
                    rw [hl]
                    dsimp only
                    rw [List.append_assoc]
                    rw [hf1 g' (p2 ++ r') (by omega)]
                    dsimp only
                    rw [hf2 g' r' (by omega)]

/-- Soundness: a successful `parseK` run builds trees exactly as the
declarative depth-first consumption relation describes. -/
theorem parseK_sound (ops : OpsDict) :
    ∀ (f k : Nat) (l : List KTok) (cs : List KTree) (r : List KTok),
      parseK f k ops l = some (cs, r) → Builds ops k l cs r := by
  intro f
  induction f with
  | zero =>
    intro k l cs r h
    cases k with
    | zero =>
      obtain ⟨rfl, rfl⟩ : ([] : List KTree) = cs ∧ l = r := by
        simpa [parseK] using h
      exact Builds.nil l
    | succ k => exact absurd h (by simp [parseK])
  | succ f ih =>
    intro k l cs r h
    cases k with
    | zero =>
      obtain ⟨rfl, rfl⟩ : ([] : List KTree) = cs ∧ l = r := by
        simpa [parseK] using h
      exact Builds.nil l
    | succ k =>
      cases l with
      | nil => exact absurd h (by simp [parseK])
      | cons t rest =>
        cases t with
        | num n =>
          simp only [parseK] at h
          cases hh : parseK f k ops rest with
          | none => rw [hh] at h; exact absurd h (by simp)
          | some pr =>
            obtain ⟨cs2, r2⟩ := pr
            rw [hh] at h
            obtain ⟨rfl, rfl⟩ :
                KTree.node (KTok.num n) [] :: cs2 = cs ∧ r2 = r := by
              simpa using h
            exact Builds.leaf _ _ _ _ _ rfl (ih k rest cs2 r2 hh)
        | str s =>
          simp only [parseK] at h
          cases hl : List.lookup s ops with
          | none =>
            rw [hl] at h
            dsimp only at h
            cases hh : parseK f k ops rest with
            | none => rw [hh] at h; exact absurd h (by simp)
            | some pr =>
              obtain ⟨cs2, r2⟩ := pr
              rw [hh] at h
              obtain ⟨rfl, rfl⟩ :
                  KTree.node (KTok.str s) [] :: cs2 = cs ∧ r2 = r := by
                simpa using h
              exact Builds.leaf _ _ _ _ _ (by simp [arityOfTok, hl])
                (ih k rest cs2 r2 hh)
          | some pr =>
            obtain ⟨fi, a⟩ := pr
            rw [hl] at h
            dsimp only at h
            cases h1 : parseK f a ops rest with
            | none => rw [h1] at h; exact absurd h (by simp)
            | some pr1 =>
              obtain ⟨cs1, r1⟩ := pr1
              rw [h1] at h
              dsimp only at h
              cases h2 : parseK f k ops r1 with
              | none => rw [h2] at h; exact absurd h (by simp)
              | some pr2 =>
                obtain ⟨cs2, r2⟩ := pr2
                rw [h2] at h
                obtain ⟨rfl, rfl⟩ :
                    KTree.node (KTok.str s) cs1 :: cs2 = cs ∧ r2 = r := by
                  simpa using h
                exact Builds.opNode _ _ _ _ _ _ _ _
                  (by simp [arityOfTok, hl]) (ih a rest cs1 r1 h1)
                  (ih k r1 cs2 r2 h2)

/-- Completeness: every declaratively-built consumption is found by
`parseK` with fuel one beyond the sequence length. -/
theorem builds_parseK (ops : OpsDict) {k : Nat} {l : List KTok}
    {cs : List KTree} {r : List KTok} (h : Builds ops k l cs r) :
    parseK (l.length + 1) k ops l = some (cs, r) := by
  induction h with
  | nil l0 => simp [parseK]
  | leaf t0 rest0 k0 ts0 r0 ha hb ih =>
    cases t0 with
    | num n =>
      simp only [parseK, List.length_cons]
      rw [ih]
    | str s =>
      have hl : List.lookup s ops = none := by
        simpa [arityOfTok] using ha
      simp only [parseK, List.length_cons]
      rw [hl]
      dsimp only
      rw [ih]
  | opNode t0 a0 rest0 cs0 r1 k0 ts0 r0 ha h1 h2 ih1 ih2 =>
    obtain ⟨s, rfl⟩ : ∃ s, t0 = KTok.str s := by
      cases t0 with
      | num n => simp [arityOfTok] at ha
      | str s => exact ⟨s, rfl⟩
    obtain ⟨fi, hl⟩ : ∃ fi, List.lookup s ops = some (fi, a0) := by
      simp only [arityOfTok] at ha
      obtain ⟨pr, hpr, hpa⟩ := Option.map_eq_some'.mp ha
      obtain ⟨fi, a2⟩ := pr
      cases hpa
      exact ⟨fi, hpr⟩
    simp only [parseK, List.length_cons]
    rw [hl]
    dsimp only
    rw [ih1]
    dsimp only
    obtain ⟨p1, hp1, -⟩ :=
      parseK_frame ops (rest0.length + 1) a0 rest0 cs0 r1 ih1
    obtain ⟨p2, hp2, hf2⟩ :=
      parseK_frame ops (r1.length + 1) k0 r1 ts0 r0 ih2
    have hlr : r1.length ≤ rest0.length := by
      rw [hp1]; simp
    have hlp : p2.length ≤ r1.length := by
      rw [hp2]; simp
    rw [hp2]
    rw [hf2 (rest0.length + 1) r0 (by omega)]

/-- The single-subtree reading of the parse agrees with the declarative
relation at `k = 1`. -/
theorem build_subtree_iff_builds (ops : OpsDict) (l : List KTok) (t : KTree)
    (r : List KTok) :
    build_subtree ops l = some (t, r) ↔ Builds ops 1 l [t] r := by
  constructor
  · intro h
    unfold build_subtree at h
    cases hp : parseK (l.length + 1) 1 ops l with
    | none => rw [hp] at h; exact absurd h (by simp)
    | some pr =>
      obtain ⟨cs, r0⟩ := pr
      rw [hp] at h
      have hlen := parseK_len ops (l.length + 1) 1 l cs r0 hp
      obtain ⟨t0, rfl⟩ : ∃ t0, cs = [t0] := by
        cases cs with
        | nil => simp at hlen
        | cons a as =>
          cases as with
          | nil => exact ⟨a, rfl⟩
          | cons b bs => simp at hlen
      dsimp only at h
      obtain ⟨rfl, rfl⟩ : t0 = t ∧ r0 = r := by simpa using h
      exact parseK_sound ops (l.length + 1) 1 l [t0] r0 hp
  · intro h
    have hb := builds_parseK ops h
    unfold build_subtree
    rw [hb]

/-- Claim C6: `build_tree` consumes the flat sequence with a single
forward cursor — an operator of arity `k` immediately and recursively
builds exactly `k` child subtrees (depth-first, in consumption order)
before returning, a terminal yields a childless leaf consuming nothing
further (the `Builds` relation states precisely this, and the parse agrees
with it exactly) — and on `+ - * a b c d e f` with binary `+`, `-`, `*`
it builds `+(-(*(a, b), c), d)`. -/
theorem c6_build_tree_depth_first :
    (∀ (ops : OpsDict) (l : List KTok) (t : KTree) (r : List KTok),
      build_subtree ops l = some (t, r) ↔ Builds ops 1 l [t] r) ∧
    build_tree c6Ops c6Toks = some c6Tree :=
  ⟨build_subtree_iff_builds, rfl⟩

/-- Claim C10: the parse consumes only a prefix of the flat sequence, and
`build_tree`, `evaluate` and `to_string` depend only on that consumed
prefix — replacing everything after it changes none of them. -/
theorem c10_prefix_dependence (ops : OpsDict) (vars : String → Option Int)
    (p r r' : List KTok) (t : KTree)
    (h : build_subtree ops (p ++ r) = some (t, r)) :
    build_subtree ops (p ++ r') = some (t, r') ∧
    build_tree ops (p ++ r') = build_tree ops (p ++ r) ∧
    evaluateK ops (p ++ r') vars = evaluateK ops (p ++ r) vars ∧
    to_stringK ops (p ++ r') = to_stringK ops (p ++ r) := by
  have h' := h
  unfold build_subtree at h'
  cases hp : parseK ((p ++ r).length + 1) 1 ops (p ++ r) with
  | none => rw [hp] at h'; exact absurd h' (by simp)
  | some pr =>
    obtain ⟨cs, r0⟩ := pr
    rw [hp] at h'
    have hlen := parseK_len ops ((p ++ r).length + 1) 1 (p ++ r) cs r0 hp
    obtain ⟨t0, rfl⟩ : ∃ t0, cs = [t0] := by
      cases cs with
      | nil => simp at hlen
      | cons a as =>
        cases as with
        | nil => exact ⟨a, rfl⟩
        | cons b bs => simp at hlen
    dsimp only at h'
    obtain ⟨rfl, rfl⟩ : t0 = t ∧ r0 = r := by simpa using h'
    obtain ⟨p0, hp0, hframe⟩ :=
      parseK_frame ops ((p ++ r0).length + 1) 1 (p ++ r0) [t0] r0 hp
    have hpp : p0 = p := (List.append_cancel_right hp0.symm)
    subst hpp
    have hnew : parseK ((p0 ++ r').length + 1) 1 ops (p0 ++ r') =
        some ([t0], r') := by
      apply hframe
      simp only [List.length_append]
      omega
    have hbs : build_subtree ops (p0 ++ r') = some (t0, r') := by
      unfold build_subtree
      rw [hnew]
    have hbt : build_tree ops (p0 ++ r0) = some t0 := by
      unfold build_tree
      rw [h]
      rfl
    have hbt' : build_tree ops (p0 ++ r') = some t0 := by
      unfold build_tree
      rw [hbs]
      rfl
    refine ⟨hbs, ?_, ?_, ?_⟩
    · rw [hbt, hbt']
    · unfold evaluateK
      rw [hbt, hbt']
    · unfold to_stringK
      rw [hbt, hbt']

/-- Witness for C10: the prefix `+ 1 2` of `c6Ops` parses the same tree
whether followed by `x` or by nothing, and evaluation and rendering agree. -/
theorem c10_prefix_dependence_witness :
    build_subtree c6Ops ([KTok.str "+", KTok.num 1, KTok.num 2] ++ []) =
      some (KTree.node (KTok.str "+")
        [KTree.node (KTok.num 1) [], KTree.node (KTok.num 2) []], []) ∧
    build_tree c6Ops ([KTok.str "+", KTok.num 1, KTok.num 2] ++ []) =
      build_tree c6Ops
        ([KTok.str "+", KTok.num 1, KTok.num 2] ++ [KTok.str "x"]) ∧
    evaluateK c6Ops ([KTok.str "+", KTok.num 1, KTok.num 2] ++ []) noData =
      evaluateK c6Ops
        ([KTok.str "+", KTok.num 1, KTok.num 2] ++ [KTok.str "x"]) noData ∧
    to_stringK c6Ops ([KTok.str "+", KTok.num 1, KTok.num 2] ++ []) =
      to_stringK c6Ops
        ([KTok.str "+", KTok.num 1, KTok.num 2] ++ [KTok.str "x"]) :=
  c10_prefix_dependence c6Ops noData [KTok.str "+", KTok.num 1, KTok.num 2]
    [KTok.str "x"] []
    (KTree.node (KTok.str "+")
      [KTree.node (KTok.num 1) [], KTree.node (KTok.num 2) []]) rfl

end ExpGen
